import Mathlib

/-!
# Verification of the notionmd-cli transformation & sync pipeline

Shallow embedding of the Go sources of `christhomas/notionmd-cli`
(`main.go` plus the unnamed image/client/http files) in Lean 4, together
with theorems settling the frozen claims about the program.

Conventions used throughout:
* Go strings are modelled as Lean `String` where only equality matters and
  as `List Char` where character-level scanning matters.
* Go `int` is modelled as `Int` (overflow is immaterial here: the only
  arithmetic is `strconv.Atoi`, whose 64-bit range check is modelled
  explicitly).
* Remote (Notion API) calls are modelled as oracle parameters plus an
  explicit trace of issued operations; IO printing is not modelled.
* Fallible Go functions returning `(T, error)` become `Except String T`
  or `T × Option String`.
-/

namespace NotionMdCli

/-- One rich-text run of a Notion block (go-notion `notion.RichText`).
Only the `PlainText` field is inspected by the program
(`validateContentBlocks`, `updatePageTitle`, `getProperty`). -/
structure RichTextRun where
  plainText : String
deriving Repr, DecidableEq

/-- A Notion block as consumed by `validateContentBlocks` /
`filterTitleBlock` (main.go).  The Go code works with the open interface
`notion.Block`; the variants the code inspects are bulleted/numbered list
items (with children), code blocks (language possibly unset) and H1
headings; every other kind falls into the `default` branch of the switch.
`paragraph` and `other` stand for those pass-through kinds; like the
go-notion types they may own children, which the switch's default branch
does not touch.  A `*notion.CodeBlock` pointer is converted to the value
type before the switch (main.go:288-290), so a single `codeBlock`
constructor covers both representations. -/
inductive Block where
  | bulletedListItem (richText : List RichTextRun) (children : List Block)
  | numberedListItem (richText : List RichTextRun) (children : List Block)
  | codeBlock (language : Option String) (richText : List RichTextRun)
  | heading1 (richText : List RichTextRun)
  | paragraph (richText : List RichTextRun) (children : List Block)
  | other (children : List Block)
deriving Repr

/-- The emptiness test of main.go:294 / 303:
`len(b.RichText) == 0 || (len(b.RichText) == 1 && b.RichText[0].PlainText == "")`. -/
def emptyListItemText : List RichTextRun → Bool
  | [] => true
  | [r] => r.plainText == ""
  | _ => false

/-- `mapLanguageToNotionCompatible` (main.go:220-240): fixed lookup table
from short-form language identifiers to Notion-accepted ones; unmapped
languages pass through unchanged.  A Go map literal with constant keys is
modelled as a chain of equality tests (lookup order is irrelevant for a
map lookup). -/
def mapLanguageToNotionCompatible (lang : String) : String :=
  if lang == "sh" then "shell"
  else if lang == "bash" then "bash"
  else if lang == "zsh" then "shell"
  else if lang == "js" then "javascript"
  else if lang == "ts" then "typescript"
  else if lang == "py" then "python"
  else if lang == "rb" then "ruby"
  else if lang == "cs" then "c#"
  else if lang == "cpp" then "c++"
  else if lang == "yml" then "yaml"
  else if lang == "text" then "plain text"
  else if lang == "txt" then "plain text"
  else lang

/-- `processCodeBlock` (main.go:265-281): a nil language becomes
"plain text"; a set language is passed through the lookup table.  The
index parameter and the `fmt.Printf` warnings are IO only and are not
modelled. -/
def processCodeBlock (language : Option String) (richText : List RichTextRun) : Block :=
  match language with
  | none => Block.codeBlock (some "plain text") richText
  | some l => Block.codeBlock (some (mapLanguageToNotionCompatible l)) richText

/-- `validateContentBlocks` (main.go:284-320): drops empty bulleted and
numbered list items (per `emptyListItemText`), recurses into the children
of surviving list items (guarded by `len(b.Children) > 0` in the source),
patches code-block languages via `processCodeBlock`, and passes every
other block through unchanged (the switch's `default` branch — note it
does not recurse into children of non-list blocks). -/
def validateContentBlocks : List Block → List Block
  | [] => []
  | b :: rest =>
    match b with
    | Block.bulletedListItem rt ch =>
      if emptyListItemText rt then
        validateContentBlocks rest
      else
        Block.bulletedListItem rt (if ch.isEmpty then ch else validateContentBlocks ch) ::
          validateContentBlocks rest
    | Block.numberedListItem rt ch =>
      if emptyListItemText rt then
        validateContentBlocks rest
      else
        Block.numberedListItem rt (if ch.isEmpty then ch else validateContentBlocks ch) ::
          validateContentBlocks rest
    | Block.codeBlock lang rt => processCodeBlock lang rt :: validateContentBlocks rest
    | Block.heading1 rt => Block.heading1 rt :: validateContentBlocks rest
    | Block.paragraph rt ch => Block.paragraph rt ch :: validateContentBlocks rest
    | Block.other ch => Block.other ch :: validateContentBlocks rest
termination_by bs => sizeOf bs
decreasing_by all_goals (simp_wf <;> omega)

/-! ## Claim-side predicates for the validator (C1, C3, C8) -/

/-- The combined plain text of a rich-text list ("combined text" in the
spec's wording: the concatenation of all runs). -/
def combinedPlainText (rt : List RichTextRun) : String :=
  rt.foldl (fun a r => a ++ r.plainText) ""

/-- Children owned by a block (for claim-level whole-tree traversal). -/
def Block.childBlocks : Block → List Block
  | Block.bulletedListItem _ ch => ch
  | Block.numberedListItem _ ch => ch
  | Block.codeBlock _ _ => []
  | Block.heading1 _ => []
  | Block.paragraph _ ch => ch
  | Block.other ch => ch

/-- The violation notion of claim C1 at a single node: a bulleted or
numbered list item whose combined text is empty, or a code block whose
language is unset. -/
def claimViolatingBlock : Block → Bool
  | Block.bulletedListItem rt _ => combinedPlainText rt == ""
  | Block.numberedListItem rt _ => combinedPlainText rt == ""
  | Block.codeBlock none _ => true
  | _ => false

mutual
/-- Whole-tree search (every depth, all children) for a claim-C1 violation. -/
def blockHasClaimViolation : Block → Bool
  | Block.bulletedListItem rt ch =>
      (combinedPlainText rt == "") || listHasClaimViolation ch
  | Block.numberedListItem rt ch =>
      (combinedPlainText rt == "") || listHasClaimViolation ch
  | Block.codeBlock none _ => true
  | Block.codeBlock (some _) _ => false
  | Block.heading1 _ => false
  | Block.paragraph _ ch => listHasClaimViolation ch
  | Block.other ch => listHasClaimViolation ch

/-- Whole-tree search over a block list for a claim-C1 violation. -/
def listHasClaimViolation : List Block → Bool
  | [] => false
  | b :: rest => blockHasClaimViolation b || listHasClaimViolation rest
end

/-- The invariant `validateContentBlocks` actually establishes: at the top
level and at every depth reachable through bulleted/numbered list-item
children, no list item is empty in the sense of `emptyListItemText` and no
code block has an unset language.  Children of other block kinds are not
constrained (the validator never visits them). -/
def listSpineOK : List Block → Bool
  | [] => true
  | Block.bulletedListItem rt ch :: rest =>
      !emptyListItemText rt && listSpineOK ch && listSpineOK rest
  | Block.numberedListItem rt ch :: rest =>
      !emptyListItemText rt && listSpineOK ch && listSpineOK rest
  | Block.codeBlock none _ :: _ => false
  | _ :: rest => listSpineOK rest
termination_by bs => sizeOf bs
decreasing_by all_goals (simp_wf <;> omega)

mutual
/-- Claim C8's "no violations" condition on a single block, read over the
whole tree: no empty list item anywhere (combined text empty) and no code
block with an unset language or with a language the lookup table would
change (a short-form identifier). -/
def cleanBlock : Block → Bool
  | Block.bulletedListItem rt ch => !(combinedPlainText rt == "") && cleanList ch
  | Block.numberedListItem rt ch => !(combinedPlainText rt == "") && cleanList ch
  | Block.codeBlock none _ => false
  | Block.codeBlock (some l) _ => mapLanguageToNotionCompatible l == l
  | Block.heading1 _ => true
  | Block.paragraph _ ch => cleanList ch
  | Block.other ch => cleanList ch

/-- Claim C8's "no violations" condition over a block list. -/
def cleanList : List Block → Bool
  | [] => true
  | b :: rest => cleanBlock b && cleanList rest
end

/-! ## Validator lemmas -/

/-- An item whose combined text is non-empty is never classified empty by
the source's test (main.go:294). -/
lemma emptyListItemText_eq_false_of_combined_ne (rt : List RichTextRun)
    (h : ¬ combinedPlainText rt = "") : emptyListItemText rt = false := by
  match rt with
  | [] => exact absurd rfl h
  | [r] =>
    simp only [combinedPlainText, List.foldl_cons, List.foldl_nil, String.empty_append] at h
    simp [emptyListItemText, h]
  | _ :: _ :: _ => simp [emptyListItemText]

/-- The validator's output satisfies the spine invariant `listSpineOK`. -/
lemma validate_spine_ok (bs : List Block) :
    listSpineOK (validateContentBlocks bs) = true := by
  induction bs using validateContentBlocks.induct with
  | case1 => simp [validateContentBlocks, listSpineOK]
  | case2 rest rt ch hemp ih =>
    simpa [validateContentBlocks, hemp] using ih
  | case3 rest rt ch hemp ihch ih =>
    rw [Bool.not_eq_true] at hemp
    cases ch with
    | nil => simp [validateContentBlocks, hemp, listSpineOK, List.isEmpty, ih]
    | cons c cs =>
      simp only [validateContentBlocks, hemp, Bool.false_eq_true, if_false, List.isEmpty_cons]
      simp [listSpineOK, hemp, ihch, ih]
  | case4 rest rt ch hemp ih =>
    simpa [validateContentBlocks, hemp] using ih
  | case5 rest rt ch hemp ihch ih =>
    rw [Bool.not_eq_true] at hemp
    cases ch with
    | nil => simp [validateContentBlocks, hemp, listSpineOK, List.isEmpty, ih]
    | cons c cs =>
      simp only [validateContentBlocks, hemp, Bool.false_eq_true, if_false, List.isEmpty_cons]
      simp [listSpineOK, hemp, ihch, ih]
  | case6 rest lang rt ih =>
    cases lang with
    | none => simp [validateContentBlocks, processCodeBlock, listSpineOK, ih]
    | some l => simp [validateContentBlocks, processCodeBlock, listSpineOK, ih]
  | case7 rest rt ih => simp [validateContentBlocks, listSpineOK, ih]
  | case8 rest rt ch ih => simp [validateContentBlocks, listSpineOK, ih]
  | case9 rest ch ih => simp [validateContentBlocks, listSpineOK, ih]

/-- In a spine-valid list, every top-level bulleted item is non-empty. -/
lemma spine_bulleted_nonempty (l : List Block) (hl : listSpineOK l = true)
    (rt : List RichTextRun) (ch : List Block)
    (hm : Block.bulletedListItem rt ch ∈ l) : emptyListItemText rt = false := by
  induction l with
  | nil => cases hm
  | cons b rest ih =>
    rcases List.mem_cons.mp hm with hb | hr
    · subst hb
      simp only [listSpineOK, Bool.and_eq_true, Bool.not_eq_eq_eq_not, Bool.not_true] at hl
      exact hl.1.1
    · apply ih _ hr
      cases b with
      | bulletedListItem rt2 ch2 =>
        simp only [listSpineOK, Bool.and_eq_true] at hl; exact hl.2
      | numberedListItem rt2 ch2 =>
        simp only [listSpineOK, Bool.and_eq_true] at hl; exact hl.2
      | codeBlock lang rt2 =>
        cases lang with
        | none => simp [listSpineOK] at hl
        | some l2 => simpa [listSpineOK] using hl
      | heading1 rt2 => simpa [listSpineOK] using hl
      | paragraph rt2 ch2 => simpa [listSpineOK] using hl
      | other ch2 => simpa [listSpineOK] using hl

/-- In a spine-valid list, every top-level numbered item is non-empty. -/
lemma spine_numbered_nonempty (l : List Block) (hl : listSpineOK l = true)
    (rt : List RichTextRun) (ch : List Block)
    (hm : Block.numberedListItem rt ch ∈ l) : emptyListItemText rt = false := by
  induction l with
  | nil => cases hm
  | cons b rest ih =>
    rcases List.mem_cons.mp hm with hb | hr
    · subst hb
      simp only [listSpineOK, Bool.and_eq_true, Bool.not_eq_eq_eq_not, Bool.not_true] at hl
      exact hl.1.1
    · apply ih _ hr
      cases b with
      | bulletedListItem rt2 ch2 =>
        simp only [listSpineOK, Bool.and_eq_true] at hl; exact hl.2
      | numberedListItem rt2 ch2 =>
        simp only [listSpineOK, Bool.and_eq_true] at hl; exact hl.2
      | codeBlock lang rt2 =>
        cases lang with
        | none => simp [listSpineOK] at hl
        | some l2 => simpa [listSpineOK] using hl
      | heading1 rt2 => simpa [listSpineOK] using hl
      | paragraph rt2 ch2 => simpa [listSpineOK] using hl
      | other ch2 => simpa [listSpineOK] using hl

/-- A non-empty bulleted item of the input survives validation, with its
children validated in turn. -/
lemma validate_keeps_bulleted (bs : List Block) (rt : List RichTextRun)
    (ch : List Block) (hm : Block.bulletedListItem rt ch ∈ bs)
    (hne : emptyListItemText rt = false) :
    Block.bulletedListItem rt (validateContentBlocks ch) ∈ validateContentBlocks bs := by
  induction bs using validateContentBlocks.induct with
  | case1 => cases hm
  | case2 rest a a1 hemp ih =>
    rcases List.mem_cons.mp hm with hb | hr
    · injection hb with h1 h2; subst h1
      rw [hemp] at hne; cases hne
    · simpa [validateContentBlocks, hemp] using ih hr
  | case3 rest a a1 hemp ihch ih =>
    rw [Bool.not_eq_true] at hemp
    rcases List.mem_cons.mp hm with hb | hr
    · injection hb with h1 h2; subst h1; subst h2
      cases ch with
      | nil =>
        simp [validateContentBlocks, hemp, List.isEmpty]
      | cons c cs =>
        simp only [validateContentBlocks, hemp, Bool.false_eq_true, if_false,
          List.isEmpty_cons]
        simp
    · simp only [validateContentBlocks, hemp, Bool.false_eq_true, if_false]
      exact List.mem_cons_of_mem _ (ih hr)
  | case4 rest a a1 hemp ih =>
    rcases List.mem_cons.mp hm with hb | hr
    · cases hb
    · simpa [validateContentBlocks, hemp] using ih hr
  | case5 rest a a1 hemp ihch ih =>
    rw [Bool.not_eq_true] at hemp
    rcases List.mem_cons.mp hm with hb | hr
    · cases hb
    · simp only [validateContentBlocks, hemp, Bool.false_eq_true, if_false]
      exact List.mem_cons_of_mem _ (ih hr)
  | case6 rest lang a1 ih =>
    rcases List.mem_cons.mp hm with hb | hr
    · cases hb
    · simp only [validateContentBlocks]
      exact List.mem_cons_of_mem _ (ih hr)
  | case7 rest a ih =>
    rcases List.mem_cons.mp hm with hb | hr
    · cases hb
    · simp only [validateContentBlocks]
      exact List.mem_cons_of_mem _ (ih hr)
  | case8 rest a a1 ih =>
    rcases List.mem_cons.mp hm with hb | hr
    · cases hb
    · simp only [validateContentBlocks]
      exact List.mem_cons_of_mem _ (ih hr)
  | case9 rest a ih =>
    rcases List.mem_cons.mp hm with hb | hr
    · cases hb
    · simp only [validateContentBlocks]
      exact List.mem_cons_of_mem _ (ih hr)

/-- A non-empty numbered item of the input survives validation, with its
children validated in turn. -/
lemma validate_keeps_numbered (bs : List Block) (rt : List RichTextRun)
    (ch : List Block) (hm : Block.numberedListItem rt ch ∈ bs)
    (hne : emptyListItemText rt = false) :
    Block.numberedListItem rt (validateContentBlocks ch) ∈ validateContentBlocks bs := by
  induction bs using validateContentBlocks.induct with
  | case1 => cases hm
  | case2 rest a a1 hemp ih =>
    rcases List.mem_cons.mp hm with hb | hr
    · cases hb
    · simpa [validateContentBlocks, hemp] using ih hr
  | case3 rest a a1 hemp ihch ih =>
    rw [Bool.not_eq_true] at hemp
    rcases List.mem_cons.mp hm with hb | hr
    · cases hb
    · simp only [validateContentBlocks, hemp, Bool.false_eq_true, if_false]
      exact List.mem_cons_of_mem _ (ih hr)
  | case4 rest a a1 hemp ih =>
    rcases List.mem_cons.mp hm with hb | hr
    · injection hb with h1 h2; subst h1
      rw [hemp] at hne; cases hne
    · simpa [validateContentBlocks, hemp] using ih hr
  | case5 rest a a1 hemp ihch ih =>
    rw [Bool.not_eq_true] at hemp
    rcases List.mem_cons.mp hm with hb | hr
    · injection hb with h1 h2; subst h1; subst h2
      cases ch with
      | nil =>
        simp [validateContentBlocks, hemp, List.isEmpty]
      | cons c cs =>
        simp only [validateContentBlocks, hemp, Bool.false_eq_true, if_false,
          List.isEmpty_cons]
        simp
    · simp only [validateContentBlocks, hemp, Bool.false_eq_true, if_false]
      exact List.mem_cons_of_mem _ (ih hr)
  | case6 rest lang a1 ih =>
    rcases List.mem_cons.mp hm with hb | hr
    · cases hb
    · simp only [validateContentBlocks]
      exact List.mem_cons_of_mem _ (ih hr)
  | case7 rest a ih =>
    rcases List.mem_cons.mp hm with hb | hr
    · cases hb
    · simp only [validateContentBlocks]
      exact List.mem_cons_of_mem _ (ih hr)
  | case8 rest a a1 ih =>
    rcases List.mem_cons.mp hm with hb | hr
    · cases hb
    · simp only [validateContentBlocks]
      exact List.mem_cons_of_mem _ (ih hr)
  | case9 rest a ih =>
    rcases List.mem_cons.mp hm with hb | hr
    · cases hb
    · simp only [validateContentBlocks]
      exact List.mem_cons_of_mem _ (ih hr)

/-- A clean tree (no claim-C8 violations anywhere) is returned unchanged. -/
lemma validate_id_of_clean (bs : List Block) (h : cleanList bs = true) :
    validateContentBlocks bs = bs := by
  induction bs using validateContentBlocks.induct with
  | case1 => simp [validateContentBlocks]
  | case2 rest a a1 hemp ih =>
    exfalso
    simp only [cleanList, cleanBlock, Bool.and_eq_true, Bool.not_eq_eq_eq_not,
      Bool.not_true] at h
    have hcc : ¬ combinedPlainText a = "" := by
      intro hc
      have hb := h.1.1
      rw [hc] at hb
      simp at hb
    have := emptyListItemText_eq_false_of_combined_ne a hcc
    rw [hemp] at this; cases this
  | case3 rest a a1 hemp ihch ih =>
    rw [Bool.not_eq_true] at hemp
    simp only [cleanList, cleanBlock, Bool.and_eq_true] at h
    have hch := ihch h.1.2
    have hrest := ih h.2
    cases a1 with
    | nil => simp [validateContentBlocks, hemp, List.isEmpty, hrest]
    | cons c cs =>
      simp only [validateContentBlocks, hemp, Bool.false_eq_true, if_false,
        List.isEmpty_cons]
      simp [hch, hrest]
  | case4 rest a a1 hemp ih =>
    exfalso
    simp only [cleanList, cleanBlock, Bool.and_eq_true, Bool.not_eq_eq_eq_not,
      Bool.not_true] at h
    have hcc : ¬ combinedPlainText a = "" := by
      intro hc
      have hb := h.1.1
      rw [hc] at hb
      simp at hb
    have := emptyListItemText_eq_false_of_combined_ne a hcc
    rw [hemp] at this; cases this
  | case5 rest a a1 hemp ihch ih =>
    rw [Bool.not_eq_true] at hemp
    simp only [cleanList, cleanBlock, Bool.and_eq_true] at h
    have hch := ihch h.1.2
    have hrest := ih h.2
    cases a1 with
    | nil => simp [validateContentBlocks, hemp, List.isEmpty, hrest]
    | cons c cs =>
      simp only [validateContentBlocks, hemp, Bool.false_eq_true, if_false,
        List.isEmpty_cons]
      simp [hch, hrest]
  | case6 rest lang a1 ih =>
    cases lang with
    | none => simp [cleanList, cleanBlock] at h
    | some l =>
      simp only [cleanList, cleanBlock, Bool.and_eq_true, beq_iff_eq] at h
      simp [validateContentBlocks, processCodeBlock, h.1, ih h.2]
  | case7 rest a ih =>
    simp only [cleanList, cleanBlock, Bool.and_eq_true] at h
    simp [validateContentBlocks, ih h.2]
  | case8 rest a a1 ih =>
    simp only [cleanList, cleanBlock, Bool.and_eq_true] at h
    simp [validateContentBlocks, ih h.2]
  | case9 rest a ih =>
    simp only [cleanList, cleanBlock, Bool.and_eq_true] at h
    simp [validateContentBlocks, ih h.2]

/-! ## Claims C1, C3, C8 -/

/-- C1 (amended): the output of `validateContentBlocks` satisfies, at the
top level and at every depth reachable through bulleted/numbered
list-item children, that no list item is empty (rich text empty or a
single empty run) and no code block has an unset language.  (The original
claim's "at every depth of the tree" fails because the validator never
descends into children of non-list blocks, and its "combined text is
empty" fails because the source's emptiness test only recognizes an empty
run list or a single empty run.) -/
theorem thm_C1 (bs : List Block) :
    listSpineOK (validateContentBlocks bs) = true :=
  validate_spine_ok bs

/-- C1 counterexample: a paragraph carrying a nil-language code block as a
child passes through `validateContentBlocks` untouched, so the output
tree still contains, at depth 1, a CodeBlock whose language is unset —
refuting the claim's "at every depth of the tree". -/
theorem cex_C1 :
    validateContentBlocks [Block.paragraph [] [Block.codeBlock none []]] =
      [Block.paragraph [] [Block.codeBlock none []]] ∧
    listHasClaimViolation
      (validateContentBlocks [Block.paragraph [] [Block.codeBlock none []]]) = true := by
  constructor
  · simp [validateContentBlocks]
  · simp [validateContentBlocks, listHasClaimViolation, blockHasClaimViolation]

/-- C3 (amended): at the top level (and hence, by recursion, along every
list spine) `validateContentBlocks` drops exactly those bulleted or
numbered list items whose rich text is empty or is a single run of empty
plain text: every surviving list item fails that emptiness test, and
every input list item failing it survives (with its children validated).
The original claim's "combined text is empty" criterion is wrong: an item
whose combined text is empty but spread over two or more runs is kept. -/
theorem thm_C3 (bs : List Block) :
    (∀ rt ch, Block.bulletedListItem rt ch ∈ validateContentBlocks bs →
      emptyListItemText rt = false) ∧
    (∀ rt ch, Block.numberedListItem rt ch ∈ validateContentBlocks bs →
      emptyListItemText rt = false) ∧
    (∀ rt ch, Block.bulletedListItem rt ch ∈ bs → emptyListItemText rt = false →
      Block.bulletedListItem rt (validateContentBlocks ch) ∈ validateContentBlocks bs) ∧
    (∀ rt ch, Block.numberedListItem rt ch ∈ bs → emptyListItemText rt = false →
      Block.numberedListItem rt (validateContentBlocks ch) ∈ validateContentBlocks bs) := by
  refine ⟨?_, ?_, ?_, ?_⟩
  · intro rt ch hm
    exact spine_bulleted_nonempty _ (validate_spine_ok bs) rt ch hm
  · intro rt ch hm
    exact spine_numbered_nonempty _ (validate_spine_ok bs) rt ch hm
  · intro rt ch hm hne
    exact validate_keeps_bulleted bs rt ch hm hne
  · intro rt ch hm hne
    exact validate_keeps_numbered bs rt ch hm hne

/-- C3 witness: instantiating the amended claim at a concrete one-element
list. -/
theorem wit_C3 :
    Block.bulletedListItem [⟨"x"⟩] (validateContentBlocks []) ∈
      validateContentBlocks [Block.bulletedListItem [⟨"x"⟩] []] :=
  (thm_C3 [Block.bulletedListItem [⟨"x"⟩] []]).2.2.1 [⟨"x"⟩] []
    (List.mem_singleton.mpr rfl) (by simp [emptyListItemText])

/-- C3 counterexample: a bulleted item whose rich text is two empty runs
has empty combined text, yet `validateContentBlocks` keeps it — refuting
"drops exactly those ... whose combined text is empty". -/
theorem cex_C3 :
    combinedPlainText [(⟨""⟩ : RichTextRun), ⟨""⟩] = "" ∧
    validateContentBlocks [Block.bulletedListItem [⟨""⟩, ⟨""⟩] []] =
      [Block.bulletedListItem [⟨""⟩, ⟨""⟩] []] := by
  constructor
  · simp [combinedPlainText]
  · simp [validateContentBlocks, emptyListItemText, List.isEmpty]

/-- C8 (confirmed): a block list containing no violations anywhere — no
list item with empty combined text, no code block with an unset language
or a language the lookup table would rewrite — is returned unchanged by
`validateContentBlocks`. -/
theorem thm_C8 (bs : List Block) (h : cleanList bs = true) :
    validateContentBlocks bs = bs :=
  validate_id_of_clean bs h

/-- C8 witness: a concrete violation-free tree round-trips unchanged. -/
theorem wit_C8 :
    cleanList [Block.bulletedListItem [⟨"x"⟩] [Block.codeBlock (some "python") []],
      Block.paragraph [⟨"p"⟩] []] = true ∧
    validateContentBlocks
      [Block.bulletedListItem [⟨"x"⟩] [Block.codeBlock (some "python") []],
        Block.paragraph [⟨"p"⟩] []] =
      [Block.bulletedListItem [⟨"x"⟩] [Block.codeBlock (some "python") []],
        Block.paragraph [⟨"p"⟩] []] := by
  have hc : cleanList [Block.bulletedListItem [⟨"x"⟩] [Block.codeBlock (some "python") []],
      Block.paragraph [⟨"p"⟩] []] = true := by
    simp [cleanList, cleanBlock, combinedPlainText, mapLanguageToNotionCompatible]
  exact ⟨hc, thm_C8 _ hc⟩

/-! ## Image path parsing (unnamed/part_000, `parseImagePath`)

Paths are handled at character-list level because the Go code scans them
character by character (`strings.IndexAny`, `strings.Split`,
`strings.SplitN`, `strconv.Atoi`). -/

/-- Decimal value of an all-digit character list. -/
def digitsToNat (body : List Char) : Nat :=
  body.foldl (fun acc c => acc * 10 + (c.toNat - 48)) 0

/-- Go's `strconv.Atoi`: an optional leading sign followed by one or more
decimal digits, with a 64-bit (platform `int`) range check; every failure
(empty input, non-digit, out of range) yields an error, modelled as
`none`.  (On range errors Go additionally returns a clamped value, but
`parseImagePath` only checks `err == nil`, so the value is irrelevant.) -/
def goAtoi (s : List Char) : Option Int :=
  match s with
  | [] => none
  | c0 :: rest0 =>
    let sign : Int := if c0 = '-' then -1 else 1
    let body : List Char := if c0 = '-' || c0 = '+' then rest0 else c0 :: rest0
    if body.isEmpty || !body.all Char.isDigit then none
    else
      let v : Int := sign * (digitsToNat body : Int)
      if v < -(2 ^ 63) || v > 2 ^ 63 - 1 then none else some v

/-- Go's `strings.Split(s, "&")` (note `Split("", "&") = [""]`). -/
def splitAmp : List Char → List (List Char)
  | [] => [[]]
  | c :: t =>
    if c = '&' then [] :: splitAmp t
    else
      match splitAmp t with
      | p :: ps => (c :: p) :: ps
      | [] => [[c]]

/-- Go's `strings.Join(parts, "&")`. -/
def intercalateAmp : List (List Char) → List Char
  | [] => []
  | [p] => p
  | p :: ps => p ++ '&' :: intercalateAmp ps

/-- Go's `strings.SplitN(param, "=", 2)`: one part (no `=` present,
second component `none`) or two parts split at the first `=`. -/
def splitEq1 (p : List Char) : List Char × Option (List Char) :=
  if '=' ∈ p then (p.takeWhile (· != '='), some ((p.dropWhile (· != '=')).tail))
  else (p, none)

def widthKey : List Char := ['w', 'i', 'd', 't', 'h']

def heightKey : List Char := ['h', 'e', 'i', 'g', 'h', 't']

/-- The parameter loop of `parseImagePath` (part_000:159-183): walks the
query parameters accumulating `keepParams` (in order) and the last
successfully parsed `width`/`height` values. -/
def procLoop : List (List Char) → List (List Char) → Int → Int →
    List (List Char) × Int × Int
  | [], keep, w, h => (keep, w, h)
  | p :: rest, keep, w, h =>
    match splitEq1 p with
    | (_, none) => procLoop rest (keep ++ [p]) w h
    | (k, some v) =>
      if k = widthKey then
        match goAtoi v with
        | some n => procLoop rest keep n h
        | none => procLoop rest (keep ++ [p]) w h
      else if k = heightKey then
        match goAtoi v with
        | some n => procLoop rest keep w n
        | none => procLoop rest (keep ++ [p]) w h
      else procLoop rest (keep ++ [p]) w h

/-- `parseImagePath` (part_000:143-191): splits the path at the first `?`,
extracts `width`/`height` query parameters (dropping them), keeps every
other parameter, and reconstructs the cleaned path (re-appending a `?`
only when some parameter remains). -/
def parseImagePath (path : List Char) : List Char × Int × Int :=
  if '?' ∈ path then
    let basePath := path.takeWhile (· != '?')
    let queryPart := (path.dropWhile (· != '?')).tail
    let pr := procLoop (splitAmp queryPart) [] 0 0
    (if pr.1.isEmpty then basePath else basePath ++ '?' :: intercalateAmp pr.1,
     pr.2.1, pr.2.2)
  else (path, 0, 0)

/-- A parameter the loop keeps verbatim: no `=`, or a key other than
`width`/`height`, or an unparsable value. -/
def keepable (p : List Char) : Bool :=
  match splitEq1 p with
  | (_, none) => true
  | (k, some v) =>
    if k = widthKey then (goAtoi v).isNone
    else if k = heightKey then (goAtoi v).isNone
    else true

/-! ## Idempotence of parseImagePath (C9) -/

lemma splitAmp_ne_nil (l : List Char) : splitAmp l ≠ [] := by
  induction l with
  | nil => simp [splitAmp]
  | cons c t ih =>
    simp only [splitAmp]
    by_cases hc : c = '&'
    · simp [hc]
    · simp only [hc, if_false]
      cases h : splitAmp t with
      | nil => simp
      | cons p ps => simp

lemma splitAmp_no_amp (l : List Char) : ∀ p ∈ splitAmp l, '&' ∉ p := by
  induction l with
  | nil =>
    intro p hp
    simp only [splitAmp, List.mem_singleton] at hp
    subst hp; simp
  | cons c t ih =>
    intro p hp
    by_cases hc : c = '&'
    · simp only [splitAmp, hc, if_true] at hp
      rcases List.mem_cons.mp hp with h | h
      · subst h; simp
      · exact ih p h
    · simp only [splitAmp, hc, if_false] at hp
      cases h : splitAmp t with
      | nil => exact absurd h (splitAmp_ne_nil t)
      | cons q qs =>
        rw [h] at hp
        rcases List.mem_cons.mp hp with h2 | h2
        · subst h2
          intro hmem
          rcases List.mem_cons.mp hmem with h3 | h3
          · exact hc h3.symm
          · exact ih q (h ▸ List.mem_cons_self q qs) h3
        · exact ih p (h ▸ List.mem_cons_of_mem q h2)

lemma splitAmp_single (x : List Char) (hx : '&' ∉ x) : splitAmp x = [x] := by
  induction x with
  | nil => rfl
  | cons c t ih =>
    have hc : ¬ c = '&' := fun h => hx (h ▸ List.mem_cons_self c t)
    simp only [splitAmp, hc, if_false, ih (fun h => hx (List.mem_cons_of_mem c h))]

lemma splitAmp_append_amp (x t : List Char) (hx : '&' ∉ x) :
    splitAmp (x ++ '&' :: t) = x :: splitAmp t := by
  induction x with
  | nil => simp [splitAmp]
  | cons c cs ih =>
    have hc : ¬ c = '&' := fun h => hx (h ▸ List.mem_cons_self c cs)
    have ihx := ih (fun h => hx (List.mem_cons_of_mem c h))
    simp only [List.cons_append, splitAmp, hc, if_false]
    rw [show cs.append ('&' :: t) = cs ++ '&' :: t from rfl, ihx]

lemma intercalate_splitAmp (ks : List (List Char)) (hne : ks ≠ [])
    (hn : ∀ p ∈ ks, '&' ∉ p) : splitAmp (intercalateAmp ks) = ks := by
  induction ks with
  | nil => cases hne rfl
  | cons x rest ih =>
    cases rest with
    | nil =>
      simpa [intercalateAmp] using splitAmp_single x (hn x (List.mem_cons_self x []))
    | cons y ys =>
      have hx : '&' ∉ x := hn x (List.mem_cons_self x (y :: ys))
      show splitAmp (x ++ '&' :: intercalateAmp (y :: ys)) = x :: y :: ys
      rw [splitAmp_append_amp x _ hx,
        ih (by simp) (fun p hp => hn p (List.mem_cons_of_mem x hp))]

lemma procLoop_mem (ps : List (List Char)) :
    ∀ keep w h p, p ∈ (procLoop ps keep w h).1 →
      p ∈ keep ∨ (p ∈ ps ∧ keepable p = true) := by
  induction ps with
  | nil =>
    intro keep w h p hp
    exact Or.inl hp
  | cons q rest ih =>
    intro keep w h p hp
    rcases hs : splitEq1 q with ⟨k, vo⟩
    cases vo with
    | none =>
      simp only [procLoop, hs] at hp
      rcases ih _ _ _ _ hp with hk | hk
      · rcases List.mem_append.mp hk with h1 | h1
        · exact Or.inl h1
        · rw [List.mem_singleton] at h1; subst h1
          exact Or.inr ⟨List.mem_cons_self p rest, by simp [keepable, hs]⟩
      · exact Or.inr ⟨List.mem_cons_of_mem q hk.1, hk.2⟩
    | some v =>
      by_cases hw : k = widthKey
      · cases ha : goAtoi v with
        | some n =>
          simp only [procLoop, hs, if_pos hw, ha] at hp
          rcases ih _ _ _ _ hp with hk | hk
          · exact Or.inl hk
          · exact Or.inr ⟨List.mem_cons_of_mem q hk.1, hk.2⟩
        | none =>
          simp only [procLoop, hs, if_pos hw, ha] at hp
          rcases ih _ _ _ _ hp with hk | hk
          · rcases List.mem_append.mp hk with h1 | h1
            · exact Or.inl h1
            · rw [List.mem_singleton] at h1; subst h1
              exact Or.inr ⟨List.mem_cons_self p rest, by simp [keepable, hs, hw, ha]⟩
          · exact Or.inr ⟨List.mem_cons_of_mem q hk.1, hk.2⟩
      · by_cases hh : k = heightKey
        · cases ha : goAtoi v with
          | some n =>
            simp only [procLoop, hs, if_neg hw, if_pos hh, ha] at hp
            rcases ih _ _ _ _ hp with hk | hk
            · exact Or.inl hk
            · exact Or.inr ⟨List.mem_cons_of_mem q hk.1, hk.2⟩
          | none =>
            simp only [procLoop, hs, if_neg hw, if_pos hh, ha] at hp
            rcases ih _ _ _ _ hp with hk | hk
            · rcases List.mem_append.mp hk with h1 | h1
              · exact Or.inl h1
              · rw [List.mem_singleton] at h1; subst h1
                exact Or.inr ⟨List.mem_cons_self p rest,
                  by simp [keepable, hs, hw, hh, ha]⟩
            · exact Or.inr ⟨List.mem_cons_of_mem q hk.1, hk.2⟩
        · simp only [procLoop, hs, if_neg hw, if_neg hh] at hp
          rcases ih _ _ _ _ hp with hk | hk
          · rcases List.mem_append.mp hk with h1 | h1
            · exact Or.inl h1
            · rw [List.mem_singleton] at h1; subst h1
              exact Or.inr ⟨List.mem_cons_self p rest,
                by simp [keepable, hs, hw, hh]⟩
          · exact Or.inr ⟨List.mem_cons_of_mem q hk.1, hk.2⟩

lemma procLoop_keepables (ps : List (List Char)) :
    ∀ keep w h, (∀ p ∈ ps, keepable p = true) →
      procLoop ps keep w h = (keep ++ ps, w, h) := by
  induction ps with
  | nil => intro keep w h _; simp [procLoop]
  | cons q rest ih =>
    intro keep w h hall
    have hq := hall q (List.mem_cons_self q rest)
    have hrest : ∀ p ∈ rest, keepable p = true :=
      fun p hp => hall p (List.mem_cons_of_mem q hp)
    rcases hs : splitEq1 q with ⟨k, vo⟩
    cases vo with
    | none =>
      simp only [procLoop, hs]
      rw [ih _ _ _ hrest]
      simp
    | some v =>
      simp only [keepable, hs] at hq
      by_cases hw : k = widthKey
      · have ha : goAtoi v = none := by
          rw [if_pos hw] at hq
          exact Option.isNone_iff_eq_none.mp hq
        simp only [procLoop, hs, if_pos hw, ha]
        rw [ih _ _ _ hrest]
        simp
      · by_cases hh : k = heightKey
        · have ha : goAtoi v = none := by
            rw [if_neg hw, if_pos hh] at hq
            exact Option.isNone_iff_eq_none.mp hq
          simp only [procLoop, hs, if_neg hw, if_pos hh, ha]
          rw [ih _ _ _ hrest]
          simp
        · simp only [procLoop, hs, if_neg hw, if_neg hh]
          rw [ih _ _ _ hrest]
          simp

lemma takeWhile_dropWhile_append_cons (p : Char → Bool) (xs : List Char)
    (y : Char) (ys : List Char) (hxs : ∀ a ∈ xs, p a = true) (hy : p y = false) :
    (xs ++ y :: ys).takeWhile p = xs ∧ (xs ++ y :: ys).dropWhile p = y :: ys := by
  induction xs with
  | nil => simp [List.takeWhile_cons, List.dropWhile_cons, hy]
  | cons a as ih =>
    have ha := hxs a (List.mem_cons_self a as)
    have ihs := ih (fun b hb => hxs b (List.mem_cons_of_mem a hb))
    simp [List.takeWhile_cons, List.dropWhile_cons, ha, ihs.1, ihs.2]

/-- C9 (confirmed): `parseImagePath` is idempotent — re-parsing the
cleaned path returns the same path with zero width and height. -/
theorem thm_C9 (path : List Char) :
    parseImagePath (parseImagePath path).1 = ((parseImagePath path).1, 0, 0) := by
  by_cases hq : '?' ∈ path
  case neg =>
    have h1 : parseImagePath path = (path, 0, 0) := by
      rw [parseImagePath, if_neg hq]
    rw [h1]
    simpa using h1
  case pos =>
    have hbase : ∀ a ∈ path.takeWhile (· != '?'), (a != '?') = true :=
      fun a ha => List.mem_takeWhile_imp (p := (· != '?')) ha
    have hbase2 : '?' ∉ path.takeWhile (· != '?') := by
      intro hmem
      have := List.mem_takeWhile_imp (p := (· != '?')) hmem
      simp at this
    have hclean : (parseImagePath path).1 =
        (if (procLoop (splitAmp ((path.dropWhile (· != '?')).tail)) [] 0 0).1.isEmpty
         then path.takeWhile (· != '?')
         else path.takeWhile (· != '?') ++ '?' ::
           intercalateAmp (procLoop (splitAmp ((path.dropWhile (· != '?')).tail)) [] 0 0).1) := by
      rw [parseImagePath, if_pos hq]
    cases hkp : (procLoop (splitAmp ((path.dropWhile (· != '?')).tail)) [] 0 0).1 with
    | nil =>
      rw [hclean, hkp]
      simp only [List.isEmpty_nil, eq_self_iff_true, if_true]
      rw [parseImagePath, if_neg hbase2]
    | cons k0 ks =>
      have hmemall : ∀ p ∈ k0 :: ks, '&' ∉ p ∧ keepable p = true := by
        intro p hp
        have := procLoop_mem _ [] 0 0 p (hkp ▸ hp)
        rcases this with h | h
        · cases h
        · exact ⟨splitAmp_no_amp _ p h.1, h.2⟩
      rw [hclean, hkp]
      simp only [List.isEmpty_cons, if_neg Bool.false_ne_true]
      have hmem2 : '?' ∈ path.takeWhile (· != '?') ++ '?' :: intercalateAmp (k0 :: ks) := by
        simp
      rw [parseImagePath, if_pos hmem2]
      have htw := takeWhile_dropWhile_append_cons (· != '?') (path.takeWhile (· != '?'))
        '?' (intercalateAmp (k0 :: ks)) hbase (by simp)
      rw [htw.1, htw.2]
      simp only [List.tail_cons]
      rw [intercalate_splitAmp (k0 :: ks) (by simp) (fun p hp => (hmemall p hp).1)]
      rw [procLoop_keepables (k0 :: ks) [] 0 0 (fun p hp => (hmemall p hp).2)]
      simp

/-! ## Image reference extraction (unnamed/part_000, `FindImageReferences`)

The two package-level regular expressions are embedded as deterministic
scanners.  Go's `regexp` package uses leftmost-first (backtracking
preference) semantics, under which both patterns admit a direct
derivation:

`markdownImageRegex` = `!\[([^\]]*)\]\(([^)]+)\)`:
at a given start position, the literal `![` must match, the class
`[^\]]*` cannot contain `]`, so the greedy star is forced to stop exactly
at the first `]` (shorter alternatives leave a non-`]` at the `\]`
literal and fail), then `](` must follow literally, then `[^)]+` is
likewise forced to the (non-empty) run up to the first `)`, closed by the
literal `)`.

`htmlImageRegex` =
`<img[^>]*\ssrc=["']([^"']+)["'][^>]*(?:\salt=...)?(?:\swidth=...)?(?:\sheight=...)?[^>]*/?>`:
after the literal `<img`, the first greedy `[^>]*` prefers the longest
prefix of the run of non-`>` characters such that the rest matches, i.e.
backtracks from the run's full length downwards looking for
`\ssrc=["']`; the `src` capture `[^"']+` is forced (as above) to the
non-empty run up to the first quote, closed by one quote character.
After the closing quote the continuation
`[^>]*(?:...)?(?:...)?(?:...)?[^>]*/?>` succeeds exactly when a `>`
occurs in the remaining input: the first `[^>]*` greedily consumes up to
the first `>`, each optional group then fails its leading `\s` against
`>` and matches empty (the optional groups are tried at the position of
that first `>`, where `\s` cannot match, and greedy `?` falls back to
empty), `/?` matches empty, and `>` closes the match at the first `>`;
if no `>` remains at all, every alternative fails since each ends in the
literal `>`.  Consequently the alt/width/height capture groups (match
indices 2-4) are always unset — the preceding greedy `[^>]*` always
swallows them — so this scanner returns only the `src` capture.
`FindAllStringSubmatch` repeatedly takes the leftmost match and resumes
after its end; on failure at a position it advances one character. -/

/-- Go regexp `\s` (RE2): `[\t\n\f\r ]`. -/
def isGoSpace (c : Char) : Bool :=
  c = ' ' || c = Char.ofNat 9 || c = Char.ofNat 10 || c = Char.ofNat 12 ||
    c = Char.ofNat 13

/-- The character class `["']`. -/
def isQuoteChar (c : Char) : Bool :=
  c = Char.ofNat 34 || c = Char.ofNat 39

/-- Attempt of `markdownImageRegex` anchored at the start of `s`; returns
((alt capture, path capture), input after the match). -/
def tryMdAt : List Char → Option ((List Char × List Char) × List Char)
  | '!' :: '[' :: t =>
    let alt := t.takeWhile (· != ']')
    match t.drop alt.length with
    | ']' :: '(' :: u =>
      let p := u.takeWhile (· != ')')
      if p.isEmpty then none
      else
        match u.drop p.length with
        | ')' :: rest => some ((alt, p), rest)
        | _ => none
    | _ => none
  | _ => none

/-- `FindAllStringSubmatch` with `markdownImageRegex`: leftmost,
non-overlapping, resuming after each match; `fuel` bounds the scan (one
unit per advanced position, so the input length suffices). -/
def mdScanAux : Nat → List Char → List (List Char × List Char)
  | 0, _ => []
  | fuel + 1, s =>
    match tryMdAt s with
    | some (m, rest) => m :: mdScanAux fuel rest
    | none =>
      match s with
      | [] => []
      | _ :: t => mdScanAux fuel t

def mdScan (s : List Char) : List (List Char × List Char) := mdScanAux s.length s

/-- The `\ssrc=["']([^"']+)["']` segment of `htmlImageRegex` anchored at
the start of `u`; returns (src capture, input after the closing quote). -/
def checkSrcAt : List Char → Option (List Char × List Char)
  | c :: u2 =>
    if isGoSpace c then
      match u2 with
      | 's' :: 'r' :: 'c' :: '=' :: q :: u4 =>
        if isQuoteChar q then
          let cap := u4.takeWhile (fun c2 => !isQuoteChar c2)
          if cap.isEmpty then none
          else
            match u4.drop cap.length with
            | q2 :: u6 => if isQuoteChar q2 then some (cap, u6) else none
            | [] => none
        else none
      | _ => none
    else none
  | [] => none

/-- One backtracking candidate of the first greedy `[^>]*` of
`htmlImageRegex`: star length `l`, then the src segment, then the
continuation, which (see the derivation above) succeeds exactly when a
`>` remains; the match ends just after that first `>`. -/
def srcAttempt (t : List Char) (l : Nat) : Option (List Char × List Char) :=
  match checkSrcAt (t.drop l) with
  | some (cap, u6) =>
    if '>' ∈ u6 then some (cap, (u6.dropWhile (· != '>')).tail) else none
  | none => none

/-- Greedy backtracking over the star length, longest first. -/
def srcSearch (t : List Char) : Nat → Option (List Char × List Char)
  | 0 => srcAttempt t 0
  | l + 1 =>
    match srcAttempt t (l + 1) with
    | some r => some r
    | none => srcSearch t l

/-- Attempt of `htmlImageRegex` anchored at the start of the input:
literal `<img`, then the greedy star over at most the run of non-`>`
characters.  Returns (src capture, input after the match). -/
def tryHtmlAt : List Char → Option (List Char × List Char)
  | '<' :: 'i' :: 'm' :: 'g' :: t => srcSearch t (t.takeWhile (· != '>')).length
  | _ => none

/-- `FindAllStringSubmatch` with `htmlImageRegex` (src captures only; the
other groups are always unset, see above). -/
def htmlScanAux : Nat → List Char → List (List Char)
  | 0, _ => []
  | fuel + 1, s =>
    match tryHtmlAt s with
    | some (cap, rest) => cap :: htmlScanAux fuel rest
    | none =>
      match s with
      | [] => []
      | _ :: t => htmlScanAux fuel t

def htmlScan (s : List Char) : List (List Char) := htmlScanAux s.length s

/-- `ImageReference` (part_000:22-28). -/
structure ImageReference where
  altText : List Char
  path : List Char
  isLocal : Bool
  width : Int
  height : Int
deriving Repr, DecidableEq

def httpPrefix : List Char := ['h', 't', 't', 'p', ':', '/', '/']

def httpsPrefix : List Char := ['h', 't', 't', 'p', 's', ':', '/', '/']

/-- Go's `strings.HasPrefix`. -/
def goHasPrefix (s pre : List Char) : Bool := pre.isPrefixOf s

/-- The reference built from one markdown-form match
(part_000:68-84): clean the path, classify locality on the cleaned path. -/
def mdRefOf (m : List Char × List Char) : ImageReference :=
  let pr := parseImagePath m.2
  { altText := m.1
    path := pr.1
    isLocal := !goHasPrefix pr.1 httpPrefix && !goHasPrefix pr.1 httpsPrefix
    width := pr.2.1
    height := pr.2.2 }

/-- The reference built from one HTML-form match (part_000:89-135).  The
alt/width/height attribute captures are always unset (empty) for this
regex — see the derivation above — so `altText` stays `""` and the
dimensions come from the URL query parameters alone. -/
def htmlRefOf (src : List Char) : ImageReference :=
  let pr := parseImagePath src
  { altText := []
    path := pr.1
    isLocal := !goHasPrefix pr.1 httpPrefix && !goHasPrefix pr.1 httpsPrefix
    width := pr.2.1
    height := pr.2.2 }

/-- `FindImageReferences` (part_000:63-139): all markdown-form matches
(in source order), then all HTML-form matches (in source order). -/
def FindImageReferences (content : List Char) : List ImageReference :=
  (mdScan content).map mdRefOf ++ (htmlScan content).map htmlRefOf

/-! ## Claim C2 -/

/-- C2 (amended): `FindImageReferences` is total and returns exactly one
`ImageReference` per markdown-form match followed by exactly one per
HTML-form match — all markdown-form references (in source order) precede
all HTML-form references (in source order), so the output is **not**
globally ordered by first occurrence when the two syntaxes interleave —
and every returned reference has `isLocal` true exactly when its cleaned
path does not begin with `http://` or `https://`. -/
theorem thm_C2 (content : List Char) :
    FindImageReferences content =
      (mdScan content).map mdRefOf ++ (htmlScan content).map htmlRefOf ∧
    (FindImageReferences content).length =
      (mdScan content).length + (htmlScan content).length ∧
    ∀ r ∈ FindImageReferences content,
      r.isLocal = (!goHasPrefix r.path httpPrefix && !goHasPrefix r.path httpsPrefix) := by
  refine ⟨rfl, by simp [FindImageReferences], ?_⟩
  intro r hr
  rcases List.mem_append.mp hr with h | h
  · rcases List.mem_map.mp h with ⟨m, _, rfl⟩
    rfl
  · rcases List.mem_map.mp h with ⟨src, _, rfl⟩
    rfl

/-- A single-quote character (written by code point to keep literals
simple). -/
def squote : Char := Char.ofNat 39

/-- Text whose first reference (position 0) is an HTML `img` tag and
whose second reference is a markdown image: `<img src='a'> ![b](c)`. -/
def cexTextC2 : List Char :=
  "<img src=".toList ++ [squote, 'a', squote] ++ "> ![b](c)".toList

/-- C2 counterexample: on `cexTextC2` the extractor returns the
markdown-derived reference (path `c`) **before** the HTML-derived one
(path `a`), although the HTML tag occurs first in the text (an HTML match
starts at position 0 — `tryHtmlAt` succeeds there — while no markdown
match does), refuting "ordered by first occurrence of each reference in
the text". -/
theorem cex_C2 :
    FindImageReferences cexTextC2 =
      [⟨['b'], ['c'], true, 0, 0⟩, ⟨[], ['a'], true, 0, 0⟩] ∧
    tryHtmlAt cexTextC2 ≠ none ∧ tryMdAt cexTextC2 = none := by decide

/-! ## Page model, remote operations, and the sync pipeline
(main.go `main`, `filterTitleBlock`, `updatePageTitle`, `getProperty`)

Remote state and remote-call results are oracle parameters; the pipeline
returns the ordered trace of remote operations it issues plus its
outcome.  `FindPageByID` (used by both `getProperty` and
`updatePageTitle`) is the single remote read, `readPage`; the paginated
listing + per-block deletion of `clearPageContent` is collapsed into one
`deleteChildren` operation; `replacePageContent` is `appendChildren`. -/

/-- A page property as inspected by the program (go-notion
`notion.DatabasePageProperty`): its schema type and rich-text value. -/
structure PageProperty where
  propType : String
  richText : List RichTextRun
deriving Repr, DecidableEq

/-- A fetched page: `properties` is `none` when the Go type assertion
`page.Properties.(notion.DatabasePageProperties)` fails (not a database
page), otherwise the name→property map (modelled as an association list;
Notion property names are unique). -/
structure PageVal where
  properties : Option (List (String × PageProperty))
deriving Repr, DecidableEq

/-- `getProperty` (main.go:385-402; identical logic in
`NotionClient.GetProperty`, part_000 file): a fetch error propagates; a
non-database page, a missing property, and an empty rich-text value all
yield `("", nil)`. -/
def getProperty (findPageResult : Except String PageVal) (propName : String) :
    Except String String :=
  match findPageResult with
  | Except.error e => Except.error e
  | Except.ok page =>
    match page.properties with
    | none => Except.ok ""
    | some props =>
      match props.find? (fun kv => kv.1 == propName) with
      | none => Except.ok ""
      | some kv =>
        match kv.2.richText with
        | [] => Except.ok ""
        | r :: _ => Except.ok r.plainText

/-- One remote operation issued by the pipeline. -/
inductive RemoteOp where
  | readPage
  | writeTitle (title : String)
  | writeProperty (name value : String)
  | deleteChildren
  | appendChildren
deriving Repr, DecidableEq

/-- Everything except the page read mutates remote state. -/
def RemoteOp.isMutation : RemoteOp → Bool
  | RemoteOp.readPage => false
  | _ => true

/-- Outcome of a run (past the conversion stage). -/
inductive Outcome where
  | updated
  | dryRunStop
  | skippedNoChange
  | fatal (msg : String)
deriving Repr, DecidableEq

/-- `filterTitleBlock` (main.go:253-262): removes and returns the first
block when it is an H1 heading. -/
def filterTitleBlock : List Block → Option Block × List Block
  | [] => (none, [])
  | b :: rest =>
    match b with
    | Block.heading1 rt => (some (Block.heading1 rt), rest)
    | _ => (none, b :: rest)

/-- `updatePageTitle` (main.go:339-382): checks the block shape, fetches
the page (`readPage`), asserts database properties, looks up which
property is schema-typed "title" (Go iterates the map in unspecified
order and takes the first hit; modelled as association-list order — the
order only matters when several properties are title-typed, which Notion
does not allow, and the claims only concern the none-found case), and
issues the title `UpdatePage` mutation.  Returns (issued operations,
error).  `updateOk` is the oracle for the `UpdatePage` result. -/
def updatePageTitle (findPageResult : Except String PageVal) (updateOk : Bool)
    (titleBlock : Block) : List RemoteOp × Option String :=
  match titleBlock with
  | Block.heading1 rt =>
    match rt with
    | [] => ([], some "Heading1Block has no rich text")
    | r :: _ =>
      match findPageResult with
      | Except.error _ => ([RemoteOp.readPage], some "failed to fetch page")
      | Except.ok page =>
        match page.properties with
        | none => ([RemoteOp.readPage], some "unexpected properties type for page")
        | some props =>
          match props.find? (fun kv => kv.2.propType == "title") with
          | none => ([RemoteOp.readPage], some "no title property found on page")
          | some _ =>
            ([RemoteOp.readPage, RemoteOp.writeTitle r.plainText],
             if updateOk then none else some "update failed")
  | _ => ([], some "titleBlock is not a Heading1Block")

/-- The title phase of `main` (main.go:125-130): validate, split off the
title block, and — when present — run `updatePageTitle`, **discarding its
error** (the call's return value is ignored at main.go:129).  Only the
issued operations survive. -/
def titleStep (findPageResult : Except String PageVal) (updateTitleOk : Bool)
    (blocks : List Block) : List RemoteOp :=
  match (filterTitleBlock (validateContentBlocks blocks)).1 with
  | some t => (updatePageTitle findPageResult updateTitleOk t).1
  | none => []

/-- Lowercase hex digit. -/
def hexDigitChar (d : Nat) : Char :=
  if d < 10 then Char.ofNat (48 + d) else Char.ofNat (87 + d)

/-- Two lowercase hex digits of one byte. -/
def byteHexChars (b : Nat) : List Char :=
  [hexDigitChar (b % 256 / 16), hexDigitChar (b % 16)]

/-- `fmt.Sprintf("%x", bytes)` (main.go:119): lowercase hex rendering of
a byte slice.  The SHA-256 computation itself (main.go:118) is not
modelled; its 32-byte output is an oracle parameter. -/
def goHexString (bs : List Nat) : String :=
  String.mk (bs.foldr (fun b acc => byteHexChars b ++ acc) [])

/-- The content phase of `main` (main.go:159-171): in replace mode clear
the existing children first (a failed clear aborts before the append);
then issue the children append (`replacePageContent`); a failed append is
fatal after the fact.  `clearOk`/`appendOk` are the remote oracles. -/
def contentPhase (replaceF clearOk appendOk : Bool) (ops : List RemoteOp) :
    List RemoteOp × Outcome :=
  if replaceF then
    if clearOk then
      if appendOk then
        (ops ++ [RemoteOp.deleteChildren, RemoteOp.appendChildren], Outcome.updated)
      else
        (ops ++ [RemoteOp.deleteChildren, RemoteOp.appendChildren],
         Outcome.fatal "Error updating Notion page")
    else (ops ++ [RemoteOp.deleteChildren], Outcome.fatal "Error clearing Notion page")
  else
    if appendOk then (ops ++ [RemoteOp.appendChildren], Outcome.updated)
    else (ops ++ [RemoteOp.appendChildren], Outcome.fatal "Error updating Notion page")

/-- The pipeline of `main` from block validation onward (main.go:116-172):
title phase, dry-run gate, hash gate (`Content Hash` is the default
property name; `getProperty` issues a `readPage`; on a hash mismatch the
new hash is written via `setProperty` — whose failure only prints a
warning and never branches control flow, so no oracle is needed — before
the content phase), then the content phase. -/
def runPipeline (dryRun useHash replaceF : Bool) (hashProperty : String)
    (blocks : List Block) (hashBytes : List Nat)
    (findPageResult : Except String PageVal)
    (clearOk appendOk updateTitleOk : Bool) : List RemoteOp × Outcome :=
  let contentHash := goHexString hashBytes
  let titleOps := titleStep findPageResult updateTitleOk blocks
  if dryRun then (titleOps, Outcome.dryRunStop)
  else if useHash then
    let propName := if hashProperty == "" then "Content Hash" else hashProperty
    match getProperty findPageResult propName with
    | Except.error e => (titleOps ++ [RemoteOp.readPage], Outcome.fatal e)
    | Except.ok propertyHash =>
      if propertyHash == contentHash then
        (titleOps ++ [RemoteOp.readPage], Outcome.skippedNoChange)
      else
        contentPhase replaceF clearOk appendOk
          (titleOps ++ [RemoteOp.readPage, RemoteOp.writeProperty propName contentHash])
  else contentPhase replaceF clearOk appendOk titleOps

/-! ## Pipeline lemmas and claims C4, C5, C6, C10 -/

lemma goHexString_ne_empty (bs : List Nat) (h : bs ≠ []) : goHexString bs ≠ "" := by
  cases bs with
  | nil => cases h rfl
  | cons b t =>
    intro hc
    have hd : (goHexString (b :: t)).data = ("" : String).data := congrArg String.data hc
    simp [goHexString, byteHexChars] at hd

/-- The title phase never issues a children append. -/
lemma titleStep_no_append (fpr : Except String PageVal) (utOk : Bool)
    (blocks : List Block) :
    RemoteOp.appendChildren ∉ titleStep fpr utOk blocks := by
  unfold titleStep
  cases ho : (filterTitleBlock (validateContentBlocks blocks)).1 with
  | none => simp
  | some t =>
    cases t with
    | heading1 rt =>
      cases rt with
      | nil => simp [updatePageTitle]
      | cons r rs =>
        cases fpr with
        | error e => simp [updatePageTitle]
        | ok page =>
          cases hp : page.properties with
          | none => simp [updatePageTitle, hp]
          | some props =>
            cases hf : props.find? (fun kv => kv.2.propType == "title") with
            | none => simp [updatePageTitle, hp, hf]
            | some kv => simp [updatePageTitle, hp, hf]
    | bulletedListItem rt ch => simp [updatePageTitle]
    | numberedListItem rt ch => simp [updatePageTitle]
    | codeBlock lang rt2 => simp [updatePageTitle]
    | paragraph rt ch => simp [updatePageTitle]
    | other ch => simp [updatePageTitle]

/-- C4 (confirmed): with hash checking enabled and a readable stored hash
property (value `s`), the content write (`appendChildren`) is issued iff
`s` differs from the freshly rendered digest (and a missing stored value,
`s = ""`, always differs since a 32-byte digest renders to 64 characters);
on proceeding the trace after the title phase is exactly: read/compare
(`readPage`), write the new hash, clear (replace mode only), append. -/
theorem thm_C4 (replaceF : Bool) (hashProperty : String) (blocks : List Block)
    (hashBytes : List Nat) (page : PageVal) (clearOk appendOk updateTitleOk : Bool)
    (s : String)
    (hlen : hashBytes.length = 32)
    (hclear : replaceF = true → clearOk = true)
    (hstored : getProperty (Except.ok page)
        (if hashProperty == "" then "Content Hash" else hashProperty) = Except.ok s) :
    (RemoteOp.appendChildren ∈
        (runPipeline false true replaceF hashProperty blocks hashBytes
          (Except.ok page) clearOk appendOk updateTitleOk).1 ↔
      s ≠ goHexString hashBytes) ∧
    (s ≠ goHexString hashBytes →
      (runPipeline false true replaceF hashProperty blocks hashBytes
          (Except.ok page) clearOk appendOk updateTitleOk).1 =
        titleStep (Except.ok page) updateTitleOk blocks ++
          ([RemoteOp.readPage,
            RemoteOp.writeProperty
              (if hashProperty == "" then "Content Hash" else hashProperty)
              (goHexString hashBytes)] ++
           (if replaceF then [RemoteOp.deleteChildren] else []) ++
           [RemoteOp.appendChildren])) ∧
    (s = "" → RemoteOp.appendChildren ∈
        (runPipeline false true replaceF hashProperty blocks hashBytes
          (Except.ok page) clearOk appendOk updateTitleOk).1) := by
  have hne : goHexString hashBytes ≠ "" := by
    apply goHexString_ne_empty
    intro h0
    rw [h0] at hlen
    simp at hlen
  by_cases hsh : s = goHexString hashBytes
  · subst hsh
    have hstored2 : getProperty (Except.ok page)
        (if hashProperty = "" then "Content Hash" else hashProperty) =
        Except.ok (goHexString hashBytes) := by
      simpa using hstored
    have hrun : runPipeline false true replaceF hashProperty blocks hashBytes
        (Except.ok page) clearOk appendOk updateTitleOk =
        (titleStep (Except.ok page) updateTitleOk blocks ++ [RemoteOp.readPage],
         Outcome.skippedNoChange) := by
      simp [runPipeline, hstored2]
    refine ⟨?_, fun hc => absurd rfl hc, fun hc => absurd hc hne⟩
    rw [hrun]
    simp [List.mem_append, titleStep_no_append]
  · have hrun : (runPipeline false true replaceF hashProperty blocks hashBytes
        (Except.ok page) clearOk appendOk updateTitleOk) =
        contentPhase replaceF clearOk appendOk
          (titleStep (Except.ok page) updateTitleOk blocks ++
            [RemoteOp.readPage,
             RemoteOp.writeProperty
               (if hashProperty == "" then "Content Hash" else hashProperty)
               (goHexString hashBytes)]) := by
      have hstored2 : getProperty (Except.ok page)
          (if hashProperty = "" then "Content Hash" else hashProperty) =
          Except.ok s := by
        simpa using hstored
      simp [runPipeline, hstored2, hsh]
    have htrace : (runPipeline false true replaceF hashProperty blocks hashBytes
        (Except.ok page) clearOk appendOk updateTitleOk).1 =
        titleStep (Except.ok page) updateTitleOk blocks ++
          ([RemoteOp.readPage,
            RemoteOp.writeProperty
              (if hashProperty == "" then "Content Hash" else hashProperty)
              (goHexString hashBytes)] ++
           (if replaceF then [RemoteOp.deleteChildren] else []) ++
           [RemoteOp.appendChildren]) := by
      rw [hrun]
      cases replaceF with
      | true =>
        have hcl : clearOk = true := hclear rfl
        subst hcl
        cases appendOk <;> simp [contentPhase]
      | false =>
        cases appendOk <;> simp [contentPhase]
    refine ⟨?_, fun _ => htrace, fun _ => ?_⟩
    · rw [htrace]
      simp [hsh]
    · rw [htrace]
      simp

/-- Concrete inputs for the C4 witness: a page storing hash `"old"`. -/
def pageC4 : PageVal := ⟨some [("Content Hash", ⟨"rich_text", [⟨"old"⟩]⟩)]⟩

/-- C4 witness: with a stored hash `"old"` differing from the all-zero
digest, the run issues the content write. -/
theorem wit_C4 :
    RemoteOp.appendChildren ∈
      (runPipeline false true false "" [] (List.replicate 32 0)
        (Except.ok pageC4) true true true).1 :=
  (thm_C4 false "" [] (List.replicate 32 0) pageC4 true true true "old"
    (by simp) (fun h => by cases h) (by rfl)).1.mpr (by decide)

/-- Page with a title-typed property, for the C5 failing input. -/
def pageC5 : PageVal := ⟨some [("Name", ⟨"title", []⟩)]⟩

/-- C5: evaluating the pipeline at the failing input — dry-run mode with a
markdown document starting with an H1 heading.  `updatePageTitle` (which
issues the `UpdatePage` title mutation) runs **before** the dry-run gate
(main.go:125-136), so the run issues a remote mutation even though the
`--dry-run` flag promises "no changes will be made to Notion". -/
theorem thm_C5 :
    runPipeline true false false "" [Block.heading1 [⟨"T"⟩]] [] (Except.ok pageC5)
        true true true =
      ([RemoteOp.readPage, RemoteOp.writeTitle "T"], Outcome.dryRunStop) ∧
    ((runPipeline true false false "" [Block.heading1 [⟨"T"⟩]] [] (Except.ok pageC5)
        true true true).1.any RemoteOp.isMutation) = true := by
  have ht : titleStep (Except.ok pageC5) true [Block.heading1 [⟨"T"⟩]] =
      [RemoteOp.readPage, RemoteOp.writeTitle "T"] := by
    simp [titleStep, validateContentBlocks, filterTitleBlock, updatePageTitle, pageC5]
  have h : runPipeline true false false "" [Block.heading1 [⟨"T"⟩]] [] (Except.ok pageC5)
      true true true = ([RemoteOp.readPage, RemoteOp.writeTitle "T"], Outcome.dryRunStop) := by
    simp [runPipeline, ht]
  exact ⟨h, by rw [h]; rfl⟩

/-- C6 (amended): when a title block is present and no page property is
schema-typed "title", `updatePageTitle` fails with the error "no title
property found on page" — but `main` discards the returned error
(main.go:129), prints nothing for it, and the run continues through the
remaining pipeline steps (the children append is still issued). -/
theorem thm_C6 (page : PageVal) (props : List (String × PageProperty))
    (utOk clearOk appendOk : Bool) (hashProperty : String) (blocks : List Block)
    (hashBytes : List Nat) (r : RichTextRun) (rs : List RichTextRun)
    (h1 : page.properties = some props)
    (h2 : props.find? (fun kv => kv.2.propType == "title") = none) :
    updatePageTitle (Except.ok page) utOk (Block.heading1 (r :: rs)) =
      ([RemoteOp.readPage], some "no title property found on page") ∧
    RemoteOp.appendChildren ∈
      (runPipeline false false false hashProperty blocks hashBytes (Except.ok page)
        clearOk appendOk utOk).1 := by
  constructor
  · simp [updatePageTitle, h1, h2]
  · have htr : (runPipeline false false false hashProperty blocks hashBytes
        (Except.ok page) clearOk appendOk utOk).1 =
        titleStep (Except.ok page) utOk blocks ++ [RemoteOp.appendChildren] := by
      cases appendOk <;> simp [runPipeline, contentPhase]
    rw [htr]
    simp

/-- Page with no title-typed property, for the C6 counterexample. -/
def pageC6 : PageVal := ⟨some [("Name", ⟨"rich_text", []⟩)]⟩

/-- C6 counterexample: with a title block present and no title-typed page
property, the run does **not** abort: the title update fails internally,
yet the children append still executes and the run reports success —
refuting "aborts the run immediately ... (no further pipeline steps
execute)". -/
theorem cex_C6 :
    runPipeline false false false "" [Block.heading1 [⟨"T"⟩], Block.paragraph [⟨"p"⟩] []]
        [] (Except.ok pageC6) true true true =
      ([RemoteOp.readPage, RemoteOp.appendChildren], Outcome.updated) ∧
    (updatePageTitle (Except.ok pageC6) true (Block.heading1 [⟨"T"⟩])).2 =
      some "no title property found on page" := by
  constructor
  · have ht : titleStep (Except.ok pageC6) true
        [Block.heading1 [⟨"T"⟩], Block.paragraph [⟨"p"⟩] []] = [RemoteOp.readPage] := by
      simp [titleStep, validateContentBlocks, filterTitleBlock, updatePageTitle, pageC6]
    simp [runPipeline, contentPhase, ht]
  · simp [updatePageTitle, pageC6]

/-- C6 witness: the amended claim at the concrete C6 page. -/
theorem wit_C6 :
    updatePageTitle (Except.ok pageC6) true (Block.heading1 [⟨"T"⟩]) =
      ([RemoteOp.readPage], some "no title property found on page") ∧
    RemoteOp.appendChildren ∈
      (runPipeline false false false "" [] [] (Except.ok pageC6) true true true).1 :=
  thm_C6 pageC6 [("Name", ⟨"rich_text", []⟩)] true true true "" [] [] ⟨"T"⟩ []
    rfl (by decide)

/-- C10 (confirmed): for a successfully fetched page, a non-database
properties payload, a missing named property, and an empty rich-text
value each make `getProperty` return the empty string with a nil error —
never an error, and indistinguishable from an empty stored hash. -/
theorem thm_C10 (page : PageVal) (propName : String)
    (h : page.properties = none ∨
      (∃ props, page.properties = some props ∧
        props.find? (fun kv => kv.1 == propName) = none) ∨
      (∃ props kv, page.properties = some props ∧
        props.find? (fun kv2 => kv2.1 == propName) = some kv ∧ kv.2.richText = [])) :
    getProperty (Except.ok page) propName = Except.ok "" := by
  rcases h with h | ⟨props, hp, hf⟩ | ⟨props, kv, hp, hf, hrt⟩
  · simp [getProperty, h]
  · simp [getProperty, hp, hf]
  · simp [getProperty, hp, hf, hrt]

/-- C10 witness: a page whose properties payload is not database-typed. -/
theorem wit_C10 : getProperty (Except.ok ⟨none⟩) "Content Hash" = Except.ok "" :=
  thm_C10 ⟨none⟩ "Content Hash" (Or.inl rfl)

/-! ## Rewrite mapping (main.go `rewriteContent`, `rewriteTextMap`) and claim C7 -/

/-- JSON values, as produced by decoding the rewrite-mapping file.  The
byte-level JSON parser is not modelled; `rewriteContent` is embedded from
the decoded value up, which is where the two `json.Unmarshal` target
shapes differ. -/
inductive Json where
  | null
  | bool (b : Bool)
  | num (n : Int)
  | str (s : String)
  | arr (elems : List Json)
  | obj (fields : List (String × Json))

/-- `json.Unmarshal` into `map[string]string` (main.go:181-182): succeeds
on an object whose values are all strings or `null` — `encoding/json`
stores nothing for a `null` element, leaving the zero value, so a `null`
field decodes to an `""` entry with no error — and on a top-level `null`,
which Go decodes to a nil map.  Any other value shape (number, bool,
array, object) is a decode error.  Maps are modelled as association
lists; Go map iteration order is unspecified (noted where it matters). -/
def decodeStringMap : Json → Option (List (String × String))
  | Json.null => some []
  | Json.obj fields =>
    fields.foldr
      (fun kv acc =>
        match kv.2, acc with
        | Json.str s, some m => some ((kv.1, s) :: m)
        | Json.null, some m => some ((kv.1, "") :: m)
        | _, _ => none)
      (some [])
  | _ => none

/-- `json.Unmarshal` into `map[string]map[string]string` (main.go:187-188):
each field value must itself decode as a string map (a `null` field value
decodes to a nil inner map). -/
def decodeMultiMap : Json → Option (List (String × List (String × String)))
  | Json.null => some []
  | Json.obj fields =>
    fields.foldr
      (fun kv acc =>
        match decodeStringMap kv.2, acc with
        | some m, some mm => some ((kv.1, m) :: mm)
        | _, _ => none)
      (some [])
  | _ => none

/-- Go's `strings.Contains`: `substr` occurs contiguously in `s` (true
for the empty substring). -/
def goContains (s substr : String) : Bool := decide (substr.toList <:+: s.toList)

/-- Non-empty-pattern loop of Go's `strings.ReplaceAll`: replace every
leftmost non-overlapping occurrence; `fuel` bounds the scan (the input
length suffices since each step consumes at least one character). -/
def replaceAllAux : Nat → List Char → List Char → List Char → List Char
  | 0, s, _, _ => s
  | _, [], _, _ => []
  | fuel + 1, c :: t, old, new =>
    if old.isPrefixOf (c :: t) then
      new ++ replaceAllAux fuel ((c :: t).drop old.length) old new
    else
      c :: replaceAllAux fuel t old new

/-- Go's `strings.ReplaceAll`; with an empty pattern Go inserts the
replacement before every character and once at the end. -/
def goReplaceAll (s old new : String) : String :=
  if old = "" then
    String.mk (new.toList ++ s.toList.foldr (fun c acc => c :: (new.toList ++ acc)) [])
  else
    String.mk (replaceAllAux s.toList.length s.toList old.toList new.toList)

/-- `rewriteTextMap` (main.go:243-251): applies every mapping entry as a
literal global replacement.  Go iterates the map in unspecified order;
modelled as list order (overlapping keys are order-dependent, which the
spec flags as undefined). -/
def rewriteTextMap (content : String) (linkMap : List (String × String)) : String :=
  linkMap.foldl (fun c kv => goReplaceAll c kv.1 kv.2) content

/-- `rewriteContent` (main.go:175-210), from the decoded mapping value up
(file reading and byte-level JSON parsing sit outside the model; an
unreadable file is a separate fatal error at main.go:176-179): try the
single-page shape first, then the multi-page shape; in the multi-page
shape take the first key contained in the document path (Go map order is
unspecified; list order here) — but the source then re-checks
`matchedKey != ""`, so a matched **empty** key behaves like no match; no
match returns the content unchanged; if neither shape decodes, error. -/
def rewriteContent (mdContent : String) (mdPath : String) (mapping : Json) :
    Except String String :=
  match decodeStringMap mapping with
  | some singlePage => Except.ok (rewriteTextMap mdContent singlePage)
  | none =>
    match decodeMultiMap mapping with
    | some multiPage =>
      match multiPage.find? (fun kv => goContains mdPath kv.1) with
      | some kv =>
        if kv.1 == "" then Except.ok mdContent
        else Except.ok (rewriteTextMap mdContent kv.2)
      | none => Except.ok mdContent
    | none =>
      Except.error "Error decoding rewrite-text mapping file as single or multi-page mapping"

/-- C7 (confirmed): `rewriteContent` attempts single-document-shape
decoding first (its result is used even when the multi shape would also
decode); when the single shape fails and the multi shape matches but no
key is a substring of the document path, the input is returned unchanged
with no error; when neither shape decodes, it returns an error. -/
theorem thm_C7 (mapping : Json) (content mdPath : String) :
    (∀ m, decodeStringMap mapping = some m →
      rewriteContent content mdPath mapping = Except.ok (rewriteTextMap content m)) ∧
    (∀ mm, decodeStringMap mapping = none → decodeMultiMap mapping = some mm →
      (∀ kv ∈ mm, goContains mdPath kv.1 = false) →
      rewriteContent content mdPath mapping = Except.ok content) ∧
    (decodeStringMap mapping = none → decodeMultiMap mapping = none →
      rewriteContent content mdPath mapping =
        Except.error
          "Error decoding rewrite-text mapping file as single or multi-page mapping") := by
  refine ⟨?_, ?_, ?_⟩
  · intro m hm
    simp [rewriteContent, hm]
  · intro mm hs hmm hnone
    have hf : mm.find? (fun kv => goContains mdPath kv.1) = none :=
      List.find?_eq_none.mpr (fun kv hkv => by simp [hnone kv hkv])
    simp [rewriteContent, hs, hmm, hf]
  · intro hs hmm
    simp [rewriteContent, hs, hmm]

/-- Concrete single-page mapping for the C7 witness. -/
def mappingC7 : Json := Json.obj [("a", Json.str "b")]

/-- C7 witness: the single-page shape decodes and is applied. -/
theorem wit_C7 :
    rewriteContent "xay" "p" mappingC7 =
      Except.ok (rewriteTextMap "xay" [("a", "b")]) :=
  (thm_C7 mappingC7 "xay" "p").1 [("a", "b")] rfl

end NotionMdCli
